import Mathlib

/-!
Verification of the caldav-to-ics synchronizer.

The development embeds the frontend helpers of `src/app/page.tsx` directly,
and models the backend subsystems (iCalendar differ/merger, CalDAV client
quirk-retry, sync engine, ICS publisher) from the specification, since the
backend sources are not part of the reviewed tree.  Definitions are kept
executable so that every statement can be checked on concrete inputs.
-/

namespace CaldavSync

/-- Hours/minutes/seconds decomposition of a sync interval, the record shape
returned by the frontend helper `fromSecs` in `src/app/page.tsx`. -/
structure HMS where
  hours : Nat
  minutes : Nat
  seconds : Nat
deriving DecidableEq, Repr

/-- Embeds `toSecs` from `src/app/page.tsx`: `h * 3600 + m * 60 + s`. -/
def toSecs (h m s : Nat) : Nat := h * 3600 + m * 60 + s

/-- Embeds `fromSecs` from `src/app/page.tsx`: integer division into hours,
minutes and seconds. -/
def fromSecs (secs : Nat) : HMS :=
  { hours := secs / 3600, minutes := (secs % 3600) / 60, seconds := secs % 60 }

/-- Embeds `Array.prototype.join(' ')` as used by `formatInterval`. -/
def joinSpace : List String → String
  | [] => ""
  | [p] => p
  | p :: rest => p ++ " " ++ joinSpace rest

/-- Embeds `formatInterval` from `src/app/page.tsx`: `0` renders as
`"Manual only"`, otherwise the nonzero hour/minute/second components are
rendered and joined with spaces (with `"0s"` as fallback when all are zero). -/
def formatInterval (secs : Nat) : String :=
  if secs == 0 then "Manual only"
  else
    let d := fromSecs secs
    let parts₁ : List String := if d.hours > 0 then [Nat.repr d.hours ++ "h"] else []
    let parts₂ : List String :=
      parts₁ ++ (if d.minutes > 0 then [Nat.repr d.minutes ++ "m"] else [])
    let parts₃ : List String :=
      if d.seconds > 0 || parts₂.isEmpty then parts₂ ++ [Nat.repr d.seconds ++ "s"] else parts₂
    joinSpace parts₃

theorem toSecs_fromSecs (secs : Nat) :
    toSecs (fromSecs secs).hours (fromSecs secs).minutes (fromSecs secs).seconds = secs := by
  simp only [toSecs, fromSecs]
  omega

/-- The last character of the string, used to separate the h/m/s renderings
from the fixed string `"Manual only"`. -/
def lastChar (s : String) : Option Char := s.data.getLast?

theorem lastChar_append_right (x y : String) (c : Char)
    (hy : lastChar y = some c) : lastChar (x ++ y) = some c := by
  simp only [lastChar, String.data_append, List.getLast?_append] at *
  simp [hy]

theorem lastChar_repr_h (n : Nat) : lastChar (Nat.repr n ++ "h") = some 'h' :=
  lastChar_append_right _ _ _ (by decide)

theorem lastChar_repr_m (n : Nat) : lastChar (Nat.repr n ++ "m") = some 'm' :=
  lastChar_append_right _ _ _ (by decide)

theorem lastChar_repr_s (n : Nat) : lastChar (Nat.repr n ++ "s") = some 's' :=
  lastChar_append_right _ _ _ (by decide)

theorem formatInterval_lastChar (secs : Nat) (hpos : 0 < secs) :
    lastChar (formatInterval secs) = some 'h' ∨
    lastChar (formatInterval secs) = some 'm' ∨
    lastChar (formatInterval secs) = some 's' := by
  have hne : (secs == 0) = false := by simp; omega
  simp only [formatInterval, hne, Bool.false_eq_true, if_false]
  set d := fromSecs secs with hd
  by_cases hh : d.hours > 0
  · by_cases hm : d.minutes > 0
    · by_cases hs : d.seconds > 0
      · simp [hh, hm, hs, joinSpace]
        exact Or.inr (Or.inr (lastChar_append_right _ _ _
          (lastChar_append_right _ _ _ (lastChar_repr_s _))))
      · simp [hh, hm, hs, joinSpace]
        exact Or.inr (Or.inl (lastChar_append_right _ _ _ (lastChar_repr_m _)))
    · by_cases hs : d.seconds > 0
      · simp [hh, hm, hs, joinSpace]
        exact Or.inr (Or.inr (lastChar_append_right _ _ _ (lastChar_repr_s _)))
      · simp [hh, hm, hs, joinSpace]
        exact Or.inl (lastChar_repr_h _)
  · by_cases hm : d.minutes > 0
    · by_cases hs : d.seconds > 0
      · simp [hh, hm, hs, joinSpace]
        exact Or.inr (Or.inr (lastChar_append_right _ _ _ (lastChar_repr_s _)))
      · simp [hh, hm, hs, joinSpace]
        exact Or.inr (Or.inl (lastChar_repr_m _))
    · simp [hh, hm, joinSpace]
      exact Or.inr (Or.inr (lastChar_repr_s _))

/-- C9: a sync interval of 0 seconds means manual-only — `formatInterval`
returns `"Manual only"` exactly when the interval is 0, and every positive
interval renders as a non-empty hours/minutes/seconds string instead. -/
theorem formatInterval_manual_only (secs : Nat) :
    (formatInterval secs = "Manual only" ↔ secs = 0) ∧
    (0 < secs → formatInterval secs ≠ "") := by
  constructor
  · constructor
    · intro h
      by_contra hne
      have hpos : 0 < secs := Nat.pos_of_ne_zero hne
      rcases formatInterval_lastChar secs hpos with h1 | h1 | h1 <;>
        rw [h] at h1 <;> revert h1 <;> decide
    · intro h
      subst h
      decide
  · intro hpos heq
    rcases formatInterval_lastChar secs hpos with h1 | h1 | h1 <;>
      rw [heq] at h1 <;> revert h1 <;> decide

/-- Witness for C9 at the concrete intervals 0 and 3661. -/
theorem formatInterval_manual_only_witness :
    formatInterval 0 = "Manual only" ∧ (0 < 3661 ∧ formatInterval 3661 ≠ "") :=
  ⟨(formatInterval_manual_only 0).1.mpr rfl, by decide,
    (formatInterval_manual_only 3661).2 (by decide)⟩

/-- The frontend `Source` record from `src/app/page.tsx` (lines 7-18).
Note that it carries no password field. -/
structure Source where
  id : Nat
  name : String
  caldav_url : String
  username : String
  ics_path : String
  sync_interval_secs : Nat
  last_synced : Option String
  last_sync_status : Option String
  last_sync_error : Option String
  created_at : String
deriving DecidableEq, Repr

/-- The frontend `Destination` record from `src/app/page.tsx` (lines 20-34).
It also carries no password field. -/
structure Destination where
  id : Nat
  name : String
  ics_url : String
  caldav_url : String
  calendar_name : String
  username : String
  sync_interval_secs : Nat
  sync_all : Bool
  keep_local : Bool
  last_synced : Option String
  last_sync_status : Option String
  last_sync_error : Option String
  created_at : String
deriving DecidableEq, Repr

/-- The source form state of `src/app/page.tsx` (shape of `emptySrcForm`). -/
structure SrcForm where
  name : String
  caldav_url : String
  username : String
  password : String
  ics_path : String
  sync_interval_hours : Nat
  sync_interval_minutes : Nat
  sync_interval_seconds : Nat
deriving DecidableEq, Repr

/-- The destination form state of `src/app/page.tsx` (shape of
`emptyDestForm`). -/
structure DestForm where
  name : String
  ics_url : String
  caldav_url : String
  calendar_name : String
  username : String
  password : String
  sync_interval_hours : Nat
  sync_interval_minutes : Nat
  sync_interval_seconds : Nat
  sync_all : Bool
  keep_local : Bool
deriving DecidableEq, Repr

/-- Embeds `openSrcEdit` from `src/app/page.tsx` (lines 507-521): the form is
initialized from the record, with `password := ""` and the interval decomposed
by `fromSecs`. -/
def openSrcEditForm (src : Source) : SrcForm :=
  let d := fromSecs src.sync_interval_secs
  { name := src.name
    caldav_url := src.caldav_url
    username := src.username
    password := ""
    ics_path := src.ics_path
    sync_interval_hours := d.hours
    sync_interval_minutes := d.minutes
    sync_interval_seconds := d.seconds }

/-- Embeds `openDestEdit` from `src/app/page.tsx` (lines 551-568). -/
def openDestEditForm (dest : Destination) : DestForm :=
  let d := fromSecs dest.sync_interval_secs
  { name := dest.name
    ics_url := dest.ics_url
    caldav_url := dest.caldav_url
    calendar_name := dest.calendar_name
    username := dest.username
    password := ""
    sync_interval_hours := d.hours
    sync_interval_minutes := d.minutes
    sync_interval_seconds := d.seconds
    sync_all := dest.sync_all
    keep_local := dest.keep_local }

/-- Embeds the interval recombination performed by `submitSrc` in
`src/app/page.tsx`: the request body carries `toSecs` of the three fields. -/
def submitSrcIntervalSecs (f : SrcForm) : Nat :=
  toSecs f.sync_interval_hours f.sync_interval_minutes f.sync_interval_seconds

/-- Embeds the interval recombination performed by `submitDest` in
`src/app/page.tsx`. -/
def submitDestIntervalSecs (f : DestForm) : Nat :=
  toSecs f.sync_interval_hours f.sync_interval_minutes f.sync_interval_seconds

/-- C10: the interval decomposition round-trips — `toSecs` after `fromSecs`
is the identity on every non-negative integer, so opening the edit form and
saving without touching the interval fields preserves `sync_interval_secs`
exactly. -/
theorem interval_roundtrip :
    (∀ secs : Nat, toSecs (fromSecs secs).hours (fromSecs secs).minutes
        (fromSecs secs).seconds = secs) ∧
    (∀ src : Source,
        submitSrcIntervalSecs (openSrcEditForm src) = src.sync_interval_secs) ∧
    (∀ dest : Destination,
        submitDestIntervalSecs (openDestEditForm dest) = dest.sync_interval_secs) :=
  ⟨toSecs_fromSecs, fun src => toSecs_fromSecs src.sync_interval_secs,
    fun dest => toSecs_fromSecs dest.sync_interval_secs⟩

/-- Modelled from the spec: the persisted source record held by the config
store (the backend store is not in the reviewed tree) — the public `Source`
fields plus the write-only password (§3, §7). -/
structure StoredSource where
  cfg : Source
  password : String
deriving DecidableEq, Repr

/-- Modelled from the spec: the serialized source of an API response
(`GET /api/sources`, "passwords elided", §6), as named field/value pairs.
The password is not among the serialized fields. -/
def sourceResponseFields (s : StoredSource) : List (String × String) :=
  [("id", Nat.repr s.cfg.id),
   ("name", s.cfg.name),
   ("caldav_url", s.cfg.caldav_url),
   ("username", s.cfg.username),
   ("ics_path", s.cfg.ics_path),
   ("sync_interval_secs", Nat.repr s.cfg.sync_interval_secs),
   ("last_synced", (s.cfg.last_synced).getD "null"),
   ("last_sync_status", (s.cfg.last_sync_status).getD "null"),
   ("last_sync_error", (s.cfg.last_sync_error).getD "null"),
   ("created_at", s.cfg.created_at)]

/-- Modelled from the spec: password handling of `PUT /api/sources/{id}` —
an empty `password` in the request body preserves the stored one (§6). -/
def applyPasswordUpdate (s : StoredSource) (formPassword : String) : StoredSource :=
  if formPassword = "" then s else { s with password := formPassword }

/-- C7: passwords are write-only at the API boundary — the serialized
response carries no password field and does not depend on the stored
password; the frontend `Source`/`Destination` edit forms initialize the
password to the empty string, and updating with that empty password
preserves the stored password. -/
theorem password_write_only :
    (∀ s : StoredSource, "password" ∉ (sourceResponseFields s).map Prod.fst) ∧
    (∀ c p q, sourceResponseFields { cfg := c, password := p } =
        sourceResponseFields { cfg := c, password := q }) ∧
    (∀ src : Source, (openSrcEditForm src).password = "") ∧
    (∀ dest : Destination, (openDestEditForm dest).password = "") ∧
    (∀ s : StoredSource,
        (applyPasswordUpdate s (openSrcEditForm s.cfg).password).password
          = s.password) := by
  refine ⟨fun s => ?_, fun c p q => rfl, fun src => rfl, fun dest => rfl,
    fun s => ?_⟩
  · simp [sourceResponseFields]
  · simp [applyPasswordUpdate, openSrcEditForm]

/-- Witness for C7 at a concrete stored source. -/
theorem password_write_only_witness :
    "password" ∉ (sourceResponseFields
      { cfg := { id := 1, name := "a", caldav_url := "u", username := "n",
                 ics_path := "p", sync_interval_secs := 60, last_synced := none,
                 last_sync_status := none, last_sync_error := none,
                 created_at := "t" },
        password := "secret" }).map Prod.fst :=
  password_write_only.1 _

/-- Modelled from the spec: an in-flight event parsed from the remote ICS
feed (§3) — `uid`, optional `dtstart` timestamp, and the raw body bytes. -/
structure RemoteEvent where
  uid : String
  dtstart : Option Int
  body : String
deriving DecidableEq, Repr

/-- Modelled from the spec: an existing CalDAV event with its href (§3). -/
structure LocalEvent where
  uid : String
  href : String
  body : String
deriving DecidableEq, Repr

/-- Modelled from the spec: newline normalization of the §4.2
canonicalization — every CRLF becomes a bare LF. -/
def normEOL : List Char → List Char
  | [] => []
  | '\r' :: '\n' :: rest => '\n' :: normEOL rest
  | c :: rest => c :: normEOL rest

/-- Modelled from the spec: §4.2 canonicalization — normalize line endings
and strip trailing CR/LF runs; the result is the byte sequence used for
update-detection in §4.3. -/
def canon (s : String) : String :=
  ⟨((normEOL s.data).reverse.dropWhile (fun c => c == '\n' || c == '\r')).reverse⟩

/-- Modelled from the spec: whether a remote event is provably past (§4.3
time-window filter) — true exactly when it has a usable `dtstart` strictly
before `now`. -/
def isPast (now : Int) (e : RemoteEvent) : Bool :=
  match e.dtstart with
  | none => false
  | some t => decide (t < now)

/-- Modelled from the spec: the §4.3 time-window filter — when `sync_all` is
false, drop exactly the provably past remote events. -/
def filterRemote (syncAll : Bool) (now : Int) (evs : List RemoteEvent) :
    List RemoteEvent :=
  if syncAll then evs else evs.filter (fun e => !isPast now e)

/-- Modelled from the spec: a destination sync plan (§4.3) — create and
update operations carry `(uid, body)`, delete operations carry
`(uid, href)`. -/
structure Plan where
  creates : List (String × String)
  updates : List (String × String)
  deletes : List (String × String)
deriving DecidableEq, Repr

/-- Boolean uid-ascending comparison used for plan determinism (§4.3
Ordering). -/
def uidLe (a b : String × String) : Bool := decide (a.1 ≤ b.1)

/-- Sorts one category of plan operations by uid ascending. -/
def sortByUid (l : List (String × String)) : List (String × String) :=
  l.mergeSort uidLe

/-- Modelled from the spec: the first local event carrying the given uid —
the `uid → href` map of §3 discovered at sync time. -/
def findLocal (uid : String) (ls : List LocalEvent) : Option LocalEvent :=
  ls.find? (fun l => l.uid == uid)

/-- Modelled from the spec: the first remote event carrying the given uid. -/
def findRemote (uid : String) (rs : List RemoteEvent) : Option RemoteEvent :=
  rs.find? (fun r => r.uid == uid)

/-- Modelled from the spec: the §4.3 differ plan. For each uid: in remote
only — create; in both with canonically equal bodies — skip; in both with
differing canonical bodies — update; in local only — keep when `keep_local`
is set, else delete. Each category is sorted by uid ascending. -/
def diffPlan (keepLocal : Bool) (remote : List RemoteEvent)
    (lcl : List LocalEvent) : Plan :=
  { creates := sortByUid ((remote.filter
      (fun r => (findLocal r.uid lcl).isNone)).map (fun r => (r.uid, r.body)))
    updates := sortByUid ((remote.filter (fun r =>
      match findLocal r.uid lcl with
      | some l => decide (canon l.body ≠ canon r.body)
      | none => false)).map (fun r => (r.uid, r.body)))
    deletes :=
      if keepLocal then []
      else sortByUid ((lcl.filter
        (fun l => (findRemote l.uid remote).isNone)).map (fun l => (l.uid, l.href))) }

/-- Modelled from the spec: the plan of one destination cycle (§4.4 steps
2-5) — time-window filter, then differ. -/
def destinationPlan (syncAll keepLocal : Bool) (now : Int)
    (remote : List RemoteEvent) (lcl : List LocalEvent) : Plan :=
  diffPlan keepLocal (filterRemote syncAll now remote) lcl

/-- Modelled from the spec: the effect of the plan's update operations on a
single existing event — a `put_event` at the same uid overwrites the body. -/
def applyUpdates (p : Plan) (l : LocalEvent) : LocalEvent :=
  match p.updates.find? (fun u => u.1 == l.uid) with
  | some u => { l with body := u.2 }
  | none => l

/-- Modelled from the spec: the effect of executing a plan on the CalDAV
collection (§4.3) — deletes remove their uid, updates overwrite the body at
the existing href, creates put a new `{uid}.ics` resource (§4.1
`put_event`). -/
def applyPlan (p : Plan) (lcl : List LocalEvent) : List LocalEvent :=
  (lcl.filter (fun l => !(p.deletes.any (fun d => d.1 == l.uid)))).map
    (applyUpdates p)
  ++ p.creates.map (fun c => { uid := c.1, href := c.1 ++ ".ics", body := c.2 })

theorem mem_sortByUid {x : String × String} {l : List (String × String)} :
    x ∈ sortByUid l ↔ x ∈ l :=
  List.mem_mergeSort

theorem findLocal_isNone_iff (u : String) (lcl : List LocalEvent) :
    (findLocal u lcl).isNone ↔ ∀ l ∈ lcl, l.uid ≠ u := by
  rw [findLocal, Option.isNone_iff_eq_none, List.find?_eq_none]
  simp

theorem findRemote_isNone_iff (u : String) (rs : List RemoteEvent) :
    (findRemote u rs).isNone ↔ ∀ r ∈ rs, r.uid ≠ u := by
  rw [findRemote, Option.isNone_iff_eq_none, List.find?_eq_none]
  simp

theorem findLocal_mem {u : String} {lcl : List LocalEvent} {l : LocalEvent}
    (h : findLocal u lcl = some l) : l ∈ lcl ∧ l.uid = u :=
  ⟨List.mem_of_find?_eq_some h, by simpa using List.find?_some h⟩

theorem findLocal_eq_some_of_mem {lcl : List LocalEvent} {l : LocalEvent}
    (hl : (lcl.map LocalEvent.uid).Nodup) (hmem : l ∈ lcl) :
    findLocal l.uid lcl = some l := by
  induction lcl with
  | nil => cases hmem
  | cons x rest ih =>
    rw [List.map_cons, List.nodup_cons] at hl
    rcases List.mem_cons.mp hmem with rfl | hmem₂
    · simp [findLocal]
    · have hx : (x.uid == l.uid) = false := by
        simp only [beq_eq_false_iff_ne, ne_eq]
        intro hcontra
        exact hl.1 (hcontra ▸ List.mem_map_of_mem LocalEvent.uid hmem₂)
      rw [findLocal, List.find?_cons, hx]
      exact ih hl.2 hmem₂

theorem findRemote_eq_some_of_mem {rs : List RemoteEvent} {r : RemoteEvent}
    (hr : (rs.map RemoteEvent.uid).Nodup) (hmem : r ∈ rs) :
    findRemote r.uid rs = some r := by
  induction rs with
  | nil => cases hmem
  | cons x rest ih =>
    rw [List.map_cons, List.nodup_cons] at hr
    rcases List.mem_cons.mp hmem with rfl | hmem₂
    · simp [findRemote]
    · have hx : (x.uid == r.uid) = false := by
        simp only [beq_eq_false_iff_ne, ne_eq]
        intro hcontra
        exact hr.1 (hcontra ▸ List.mem_map_of_mem RemoteEvent.uid hmem₂)
      rw [findRemote, List.find?_cons, hx]
      exact ih hr.2 hmem₂

theorem mem_diffPlan_creates {keepLocal : Bool} {remote : List RemoteEvent}
    {lcl : List LocalEvent} {u b : String} :
    (u, b) ∈ (diffPlan keepLocal remote lcl).creates ↔
      ∃ r ∈ remote, r.uid = u ∧ r.body = b ∧ ∀ l ∈ lcl, l.uid ≠ u := by
  simp only [diffPlan, mem_sortByUid, List.mem_map, List.mem_filter,
    Prod.mk.injEq, findLocal_isNone_iff]
  constructor
  · rintro ⟨r, ⟨hrm, hnone⟩, hu, hb⟩
    exact ⟨r, hrm, hu, hb, hu ▸ hnone⟩
  · rintro ⟨r, hrm, hu, hb, hnone⟩
    exact ⟨r, ⟨hrm, hu ▸ hnone⟩, hu, hb⟩

theorem mem_diffPlan_updates {keepLocal : Bool} {remote : List RemoteEvent}
    {lcl : List LocalEvent} {u b : String}
    (hl : (lcl.map LocalEvent.uid).Nodup) :
    (u, b) ∈ (diffPlan keepLocal remote lcl).updates ↔
      ∃ r ∈ remote, r.uid = u ∧ r.body = b ∧
        ∃ l ∈ lcl, l.uid = u ∧ canon l.body ≠ canon r.body := by
  simp only [diffPlan, mem_sortByUid, List.mem_map, List.mem_filter,
    Prod.mk.injEq]
  constructor
  · rintro ⟨r, ⟨hrm, hpred⟩, hu, hb⟩
    refine ⟨r, hrm, hu, hb, ?_⟩
    cases hfind : findLocal r.uid lcl with
    | none => rw [hfind] at hpred; cases hpred
    | some l =>
      rw [hfind] at hpred
      obtain ⟨hlm, hluid⟩ := findLocal_mem hfind
      exact ⟨l, hlm, hu ▸ hluid, of_decide_eq_true hpred⟩
  · rintro ⟨r, hrm, hu, hb, l, hlm, hluid, hdiff⟩
    refine ⟨r, ⟨hrm, ?_⟩, hu, hb⟩
    have hfind : findLocal r.uid lcl = some l := by
      have := findLocal_eq_some_of_mem hl hlm
      rwa [hluid, ← hu] at this
    rw [hfind]
    exact decide_eq_true hdiff

theorem mem_diffPlan_deletes {keepLocal : Bool} {remote : List RemoteEvent}
    {lcl : List LocalEvent} {u h : String} :
    (u, h) ∈ (diffPlan keepLocal remote lcl).deletes ↔
      keepLocal = false ∧ ∃ l ∈ lcl, l.uid = u ∧ l.href = h ∧
        ∀ r ∈ remote, r.uid ≠ u := by
  cases keepLocal with
  | true => simp [diffPlan]
  | false =>
    simp only [diffPlan, if_neg (by simp : ¬(false = true)), mem_sortByUid,
      List.mem_map, List.mem_filter, Prod.mk.injEq, findRemote_isNone_iff,
      true_and]
    constructor
    · rintro ⟨l, ⟨hlm, hnone⟩, hu, hh⟩
      exact ⟨l, hlm, hu, hh, hu ▸ hnone⟩
    · rintro ⟨l, hlm, hu, hh, hnone⟩
      exact ⟨l, ⟨hlm, hu ▸ hnone⟩, hu, hh⟩

/-- C1: the differ's per-uid plan — a uid only in the remote list yields a
create; a uid in both lists with bytewise-equal canonical bodies yields no
operation; a uid in both with differing canonical bodies yields an update;
a uid only in the local CalDAV list yields no operation when `keep_local`
is true and a delete when `keep_local` is false. -/
theorem diffPlan_per_uid (keepLocal : Bool) (remote : List RemoteEvent)
    (lcl : List LocalEvent)
    (hr : (remote.map RemoteEvent.uid).Nodup)
    (hl : (lcl.map LocalEvent.uid).Nodup) :
    (∀ u b, (u, b) ∈ (diffPlan keepLocal remote lcl).creates ↔
      ∃ r ∈ remote, r.uid = u ∧ r.body = b ∧ ∀ l ∈ lcl, l.uid ≠ u) ∧
    (∀ u b, (u, b) ∈ (diffPlan keepLocal remote lcl).updates ↔
      ∃ r ∈ remote, r.uid = u ∧ r.body = b ∧
        ∃ l ∈ lcl, l.uid = u ∧ canon l.body ≠ canon r.body) ∧
    (∀ u h, (u, h) ∈ (diffPlan keepLocal remote lcl).deletes ↔
      keepLocal = false ∧ ∃ l ∈ lcl, l.uid = u ∧ l.href = h ∧
        ∀ r ∈ remote, r.uid ≠ u) ∧
    (∀ r ∈ remote, ∀ l ∈ lcl, r.uid = l.uid → canon r.body = canon l.body →
      (∀ b, (r.uid, b) ∉ (diffPlan keepLocal remote lcl).creates ∧
            (r.uid, b) ∉ (diffPlan keepLocal remote lcl).updates) ∧
      (∀ h, (r.uid, h) ∉ (diffPlan keepLocal remote lcl).deletes)) ∧
    (keepLocal = true → (diffPlan keepLocal remote lcl).deletes = []) := by
  refine ⟨fun u b => mem_diffPlan_creates,
    fun u b => mem_diffPlan_updates hl,
    fun u h => mem_diffPlan_deletes,
    fun r hrm l hlm huid hcanon => ⟨fun b => ⟨?_, ?_⟩, fun h => ?_⟩,
    fun hkeep => by simp [diffPlan, hkeep]⟩
  · intro hmem
    obtain ⟨r₂, _, hu₂, _, hno⟩ := mem_diffPlan_creates.mp hmem
    exact hno l hlm huid.symm
  · intro hmem
    obtain ⟨r₂, hrm₂, hu₂, _, l₂, hlm₂, hlu₂, hdiff⟩ :=
      (mem_diffPlan_updates hl).mp hmem
    have hreq : r₂ = r :=
      List.inj_on_of_nodup_map hr hrm₂ hrm (by rw [hu₂])
    have hleq : l₂ = l :=
      List.inj_on_of_nodup_map hl hlm₂ hlm (by rw [hlu₂, huid])
    subst hreq hleq
    exact hdiff hcanon.symm
  · intro hmem
    obtain ⟨_, l₂, _, hlu₂, _, hno⟩ := mem_diffPlan_deletes.mp hmem
    exact hno r hrm rfl

/-- Witness for C1 at the S3 scenario: remote `{u1, u2}`, local `{u1, u3}`,
`keep_local = false`. -/
theorem diffPlan_per_uid_witness :
    ((([⟨"u1", none, "B1"⟩, ⟨"u2", none, "B2"⟩] : List RemoteEvent).map
        RemoteEvent.uid).Nodup ∧
      (([⟨"u1", "h1", "B1"⟩, ⟨"u3", "h3", "B3"⟩] : List LocalEvent).map
        LocalEvent.uid).Nodup) ∧
    ("u2", "B2") ∈ (diffPlan false
        [⟨"u1", none, "B1"⟩, ⟨"u2", none, "B2"⟩]
        [⟨"u1", "h1", "B1"⟩, ⟨"u3", "h3", "B3"⟩]).creates ∧
    ("u3", "h3") ∈ (diffPlan false
        [⟨"u1", none, "B1"⟩, ⟨"u2", none, "B2"⟩]
        [⟨"u1", "h1", "B1"⟩, ⟨"u3", "h3", "B3"⟩]).deletes ∧
    (∀ b, ("u1", b) ∉ (diffPlan false
        [⟨"u1", none, "B1"⟩, ⟨"u2", none, "B2"⟩]
        [⟨"u1", "h1", "B1"⟩, ⟨"u3", "h3", "B3"⟩]).updates) := by
  have hr : (([⟨"u1", none, "B1"⟩, ⟨"u2", none, "B2"⟩] : List RemoteEvent).map
      RemoteEvent.uid).Nodup := by decide
  have hl : (([⟨"u1", "h1", "B1"⟩, ⟨"u3", "h3", "B3"⟩] : List LocalEvent).map
      LocalEvent.uid).Nodup := by decide
  obtain ⟨hc, hu, hd, hskip, _⟩ := diffPlan_per_uid false
    [⟨"u1", none, "B1"⟩, ⟨"u2", none, "B2"⟩]
    [⟨"u1", "h1", "B1"⟩, ⟨"u3", "h3", "B3"⟩] hr hl
  refine ⟨⟨hr, hl⟩, ?_, ?_, ?_⟩
  · exact (hc "u2" "B2").mpr ⟨⟨"u2", none, "B2"⟩, by decide, rfl, rfl, by decide⟩
  · exact (hd "u3" "h3").mpr ⟨rfl, ⟨"u3", "h3", "B3"⟩, by decide, rfl, rfl, by decide⟩
  · intro b
    exact ((hskip ⟨"u1", none, "B1"⟩ (by decide) ⟨"u1", "h1", "B1"⟩ (by decide)
      rfl rfl).1 b).2

theorem mem_diffPlan_updates_remote {keepLocal : Bool}
    {remote : List RemoteEvent} {lcl : List LocalEvent} {u b : String}
    (h : (u, b) ∈ (diffPlan keepLocal remote lcl).updates) :
    ∃ r ∈ remote, r.uid = u ∧ r.body = b := by
  simp only [diffPlan, mem_sortByUid, List.mem_map, List.mem_filter,
    Prod.mk.injEq] at h
  obtain ⟨r, ⟨hrm, _⟩, hu, hb⟩ := h
  exact ⟨r, hrm, hu, hb⟩

/-- C2: with `sync_all = false`, the time-window filter drops exactly those
remote events whose `dtstart` is strictly before `now`; an event with no
usable `dtstart` is kept; and consequently every create or update operation
of the resulting plan stems from a remote event that is not provably past. -/
theorem destinationPlan_past_filter (keepLocal : Bool) (now : Int)
    (remote : List RemoteEvent) (lcl : List LocalEvent) :
    (∀ e, e ∈ filterRemote false now remote ↔
      e ∈ remote ∧ isPast now e = false) ∧
    (∀ e ∈ remote, e.dtstart = none → e ∈ filterRemote false now remote) ∧
    (∀ p ∈ (destinationPlan false keepLocal now remote lcl).creates ++
        (destinationPlan false keepLocal now remote lcl).updates,
      ∃ e ∈ remote, e.uid = p.1 ∧ e.body = p.2 ∧ isPast now e = false) := by
  have hmemf : ∀ e, e ∈ filterRemote false now remote ↔
      e ∈ remote ∧ isPast now e = false := by
    intro e
    simp [filterRemote, List.mem_filter]
  refine ⟨hmemf, fun e hmem hnone => ?_, fun p hp => ?_⟩
  · exact (hmemf e).mpr ⟨hmem, by simp [isPast, hnone]⟩
  · rcases List.mem_append.mp hp with hc | hu
    · obtain ⟨r, hrm, hu, hb, _⟩ :=
        mem_diffPlan_creates.mp (show (p.1, p.2) ∈ _ from hc)
      obtain ⟨hrm₂, hpast⟩ := (hmemf r).mp hrm
      exact ⟨r, hrm₂, hu, hb, hpast⟩
    · obtain ⟨r, hrm, huid, hb⟩ :=
        mem_diffPlan_updates_remote (show (p.1, p.2) ∈ _ from hu)
      obtain ⟨hrm₂, hpast⟩ := (hmemf r).mp hrm
      exact ⟨r, hrm₂, huid, hb, hpast⟩

/-- Witness for C2 at the S5 scenario: `now = 100`, a past event `u1`, a
future event `u2` and an event `u3` without dtstart. -/
theorem destinationPlan_past_filter_witness :
    ((⟨"u3", none, "B3"⟩ : RemoteEvent) ∈
        ([⟨"u1", some 0, "B1"⟩, ⟨"u2", some 200, "B2"⟩, ⟨"u3", none, "B3"⟩] :
          List RemoteEvent) ∧
      (⟨"u3", none, "B3"⟩ : RemoteEvent).dtstart = none) ∧
    (⟨"u3", none, "B3"⟩ : RemoteEvent) ∈ filterRemote false 100
      [⟨"u1", some 0, "B1"⟩, ⟨"u2", some 200, "B2"⟩, ⟨"u3", none, "B3"⟩] :=
  ⟨⟨by decide, rfl⟩,
    (destinationPlan_past_filter false 100
      [⟨"u1", some 0, "B1"⟩, ⟨"u2", some 200, "B2"⟩, ⟨"u3", none, "B3"⟩]
      []).2.1 _ (by decide) rfl⟩

/-- Modelled from the spec: a planned CalDAV operation (§4.3). -/
inductive Op where
  | create : String → String → Op
  | update : String → String → Op
  | delete : String → String → Op
deriving DecidableEq, Repr

/-- Whether an operation is a delete. -/
def isDelete : Op → Bool
  | Op.delete _ _ => true
  | _ => false

/-- Modelled from the spec: execution order of a destination plan (§4.3
Ordering) — all creates, then all updates, then all deletes. -/
def execOps (p : Plan) : List Op :=
  p.creates.map (fun c => Op.create c.1 c.2) ++
  p.updates.map (fun c => Op.update c.1 c.2) ++
  p.deletes.map (fun d => Op.delete d.1 d.2)

theorem sortByUid_sorted (l : List (String × String)) :
    (sortByUid l).Pairwise (fun a b => a.1 ≤ b.1) := by
  have htrans : ∀ a b c : String × String, uidLe a b → uidLe b c → uidLe a c := by
    intro a b c hab hbc
    simp only [uidLe, decide_eq_true_eq] at *
    exact le_trans hab hbc
  have htotal : ∀ a b : String × String, uidLe a b || uidLe b a := by
    intro a b
    simp only [uidLe, Bool.or_eq_true, decide_eq_true_eq]
    exact le_total a.1 b.1
  have h := List.sorted_mergeSort htrans htotal l
  exact h.imp (fun hab => by
    simp only [uidLe, decide_eq_true_eq] at hab
    exact hab)

theorem diffPlan_creates_sorted (keepLocal : Bool) (remote : List RemoteEvent)
    (lcl : List LocalEvent) :
    (diffPlan keepLocal remote lcl).creates.Pairwise (fun a b => a.1 ≤ b.1) :=
  sortByUid_sorted _

theorem diffPlan_updates_sorted (keepLocal : Bool) (remote : List RemoteEvent)
    (lcl : List LocalEvent) :
    (diffPlan keepLocal remote lcl).updates.Pairwise (fun a b => a.1 ≤ b.1) :=
  sortByUid_sorted _

theorem diffPlan_deletes_sorted (keepLocal : Bool) (remote : List RemoteEvent)
    (lcl : List LocalEvent) :
    (diffPlan keepLocal remote lcl).deletes.Pairwise (fun a b => a.1 ≤ b.1) := by
  cases keepLocal with
  | true => simp [diffPlan]
  | false => exact sortByUid_sorted _

/-- C6: execution order of a destination plan — every create and update
operation comes before every delete operation (once a delete is issued,
everything later is a delete), and within each category the operations are
sorted by uid ascending. -/
theorem destinationPlan_ordering (syncAll keepLocal : Bool) (now : Int)
    (remote : List RemoteEvent) (lcl : List LocalEvent) :
    (execOps (destinationPlan syncAll keepLocal now remote lcl)).Pairwise
      (fun a b => isDelete a = true → isDelete b = true) ∧
    (destinationPlan syncAll keepLocal now remote lcl).creates.Pairwise
      (fun a b => a.1 ≤ b.1) ∧
    (destinationPlan syncAll keepLocal now remote lcl).updates.Pairwise
      (fun a b => a.1 ≤ b.1) ∧
    (destinationPlan syncAll keepLocal now remote lcl).deletes.Pairwise
      (fun a b => a.1 ≤ b.1) := by
  refine ⟨?_, diffPlan_creates_sorted _ _ _, diffPlan_updates_sorted _ _ _,
    diffPlan_deletes_sorted _ _ _⟩
  set p := destinationPlan syncAll keepLocal now remote lcl
  have hcu : ∀ x ∈ p.creates.map (fun c => Op.create c.1 c.2) ++
      p.updates.map (fun c => Op.update c.1 c.2), isDelete x = false := by
    intro x hx
    rcases List.mem_append.mp hx with hc | hu
    · obtain ⟨c, _, rfl⟩ := List.mem_map.mp hc
      rfl
    · obtain ⟨c, _, rfl⟩ := List.mem_map.mp hu
      rfl
  rw [execOps, List.pairwise_append]
  refine ⟨?_, ?_, ?_⟩
  · refine List.pairwise_of_forall_mem_list ?_
    intro a ha b _ hdel
    rw [hcu a ha] at hdel
    cases hdel
  · refine List.pairwise_of_forall_mem_list ?_
    intro a _ b hb _
    obtain ⟨d, _, rfl⟩ := List.mem_map.mp hb
    rfl
  · intro a _ b hb _
    obtain ⟨d, _, rfl⟩ := List.mem_map.mp hb
    rfl

theorem applyUpdates_uid (p : Plan) (l : LocalEvent) :
    (applyUpdates p l).uid = l.uid := by
  unfold applyUpdates
  cases p.updates.find? (fun u => u.1 == l.uid) <;> rfl

theorem diffPlan_apply_empty (keepLocal : Bool) (remote : List RemoteEvent)
    (lcl : List LocalEvent)
    (hr : (remote.map RemoteEvent.uid).Nodup)
    (hl : (lcl.map LocalEvent.uid).Nodup) :
    diffPlan keepLocal remote (applyPlan (diffPlan keepLocal remote lcl) lcl)
      = ⟨[], [], []⟩ := by
  set p := diffPlan keepLocal remote lcl with hp
  set L := applyPlan p lcl with hL
  have hA : ∀ r ∈ remote, ∃ x ∈ L, x.uid = r.uid := by
    intro r hrm
    cases hf : findLocal r.uid lcl with
    | some l₀ =>
      obtain ⟨hl₀m, hl₀u⟩ := findLocal_mem hf
      have hsurv : (p.deletes.any (fun d => d.1 == l₀.uid)) = false := by
        rw [List.any_eq_false]
        intro d hd hbeq
        obtain ⟨_, l₂, _, _, _, hno⟩ :=
          mem_diffPlan_deletes.mp (show (d.1, d.2) ∈ p.deletes from hd)
        exact hno r hrm (hl₀u.symm.trans (eq_of_beq hbeq).symm)
      refine ⟨applyUpdates p l₀, ?_, by rw [applyUpdates_uid, hl₀u]⟩
      rw [hL, applyPlan]
      exact List.mem_append_left _ (List.mem_map_of_mem _
        (List.mem_filter.mpr ⟨hl₀m, by rw [hsurv]; rfl⟩))
    | none =>
      have hcmem : (r.uid, r.body) ∈ p.creates :=
        mem_diffPlan_creates.mpr ⟨r, hrm, rfl, rfl,
          (findLocal_isNone_iff _ _).mp (by rw [hf]; rfl)⟩
      refine ⟨⟨r.uid, r.uid ++ ".ics", r.body⟩, ?_, rfl⟩
      rw [hL, applyPlan]
      exact List.mem_append_right _ (List.mem_map.mpr ⟨(r.uid, r.body), hcmem, rfl⟩)
  have hB : ∀ r ∈ remote, ∀ x ∈ L, x.uid = r.uid →
      canon x.body = canon r.body := by
    intro r hrm x hxL hxu
    rw [hL, applyPlan] at hxL
    rcases List.mem_append.mp hxL with hsur | hcre
    · obtain ⟨l, hlf, rfl⟩ := List.mem_map.mp hsur
      obtain ⟨hlm, _⟩ := List.mem_filter.mp hlf
      have hluid : l.uid = r.uid := by rw [← applyUpdates_uid p l]; exact hxu
      cases hfu : p.updates.find? (fun u => u.1 == l.uid) with
      | some upd =>
        have hbody : (applyUpdates p l).body = upd.2 := by
          rw [applyUpdates, hfu]
        have hupdmem : (upd.1, upd.2) ∈ p.updates :=
          List.mem_of_find?_eq_some hfu
        have hupd₁ : upd.1 = l.uid := by simpa using List.find?_some hfu
        obtain ⟨r₂, hr₂m, hr₂u, hr₂b⟩ := mem_diffPlan_updates_remote hupdmem
        have hre : r₂ = r := List.inj_on_of_nodup_map hr hr₂m hrm
          (by rw [hr₂u, hupd₁, hluid])
        rw [hbody, ← hr₂b, hre]
      | none =>
        have hbody : (applyUpdates p l).body = l.body := by
          rw [applyUpdates, hfu]
        by_contra hne
        have hmem₂ : (r.uid, r.body) ∈ p.updates := by
          refine (mem_diffPlan_updates hl).mpr ⟨r, hrm, rfl, rfl, l, hlm, hluid, ?_⟩
          intro hceq
          exact hne (by rw [hbody]; exact hceq)
        rw [List.find?_eq_none] at hfu
        exact hfu (r.uid, r.body) hmem₂ (by simp [hluid])
    · obtain ⟨c, hcm, rfl⟩ := List.mem_map.mp hcre
      obtain ⟨r₂, hr₂m, hr₂u, hr₂b, _⟩ :=
        mem_diffPlan_creates.mp (show (c.1, c.2) ∈ p.creates from hcm)
      have hre : r₂ = r := List.inj_on_of_nodup_map hr hr₂m hrm (hr₂u.trans hxu)
      show canon c.2 = canon r.body
      rw [← hr₂b, hre]
  have hC : keepLocal = false → ∀ x ∈ L, ∃ r ∈ remote, r.uid = x.uid := by
    intro hkeep x hxL
    rw [hL, applyPlan] at hxL
    rcases List.mem_append.mp hxL with hsur | hcre
    · obtain ⟨l, hlf, rfl⟩ := List.mem_map.mp hsur
      obtain ⟨hlm, hcond⟩ := List.mem_filter.mp hlf
      by_contra hno
      push_neg at hno
      have hdm : (l.uid, l.href) ∈ p.deletes := by
        refine mem_diffPlan_deletes.mpr ⟨hkeep, l, hlm, rfl, rfl, ?_⟩
        intro r hrm
        have := hno r hrm
        rwa [applyUpdates_uid] at this
      rw [Bool.not_eq_true', List.any_eq_false] at hcond
      exact hcond _ hdm (by simp)
    · obtain ⟨c, hcm, rfl⟩ := List.mem_map.mp hcre
      obtain ⟨r₂, hr₂m, hr₂u, _, _⟩ :=
        mem_diffPlan_creates.mp (show (c.1, c.2) ∈ p.creates from hcm)
      exact ⟨r₂, hr₂m, hr₂u⟩
  have h₁ : (diffPlan keepLocal remote L).creates = [] := by
    have hfil : remote.filter (fun r => (findLocal r.uid L).isNone) = [] := by
      rw [List.filter_eq_nil_iff]
      intro r hrm hnone
      rw [Option.isNone_iff_eq_none, findLocal, List.find?_eq_none] at hnone
      obtain ⟨x, hx, hxu⟩ := hA r hrm
      exact hnone x hx (by simp [hxu])
    simp [diffPlan, hfil, sortByUid]
  have h₂ : (diffPlan keepLocal remote L).updates = [] := by
    have hfil : remote.filter (fun r =>
        match findLocal r.uid L with
        | some l => decide (canon l.body ≠ canon r.body)
        | none => false) = [] := by
      rw [List.filter_eq_nil_iff]
      intro r hrm hpred
      cases hf : findLocal r.uid L with
      | none => rw [hf] at hpred; cases hpred
      | some x =>
        rw [hf] at hpred
        obtain ⟨hxL, hxu⟩ := findLocal_mem hf
        exact (of_decide_eq_true hpred) (hB r hrm x hxL hxu)
    simp only [decide_not] at hfil
    simp [diffPlan, hfil, sortByUid]
  have h₃ : (diffPlan keepLocal remote L).deletes = [] := by
    cases hkeep : keepLocal with
    | true => simp [diffPlan]
    | false =>
      have hfil : L.filter (fun l => (findRemote l.uid remote).isNone) = [] := by
        rw [List.filter_eq_nil_iff]
        intro x hxL hnone
        rw [Option.isNone_iff_eq_none, findRemote, List.find?_eq_none] at hnone
        obtain ⟨r, hrm, hru⟩ := hC hkeep x hxL
        exact hnone r hrm (by simp [hru])
      simp [diffPlan, hfil, sortByUid]
  have heta : diffPlan keepLocal remote L =
      ⟨(diffPlan keepLocal remote L).creates,
       (diffPlan keepLocal remote L).updates,
       (diffPlan keepLocal remote L).deletes⟩ := rfl
  rw [heta, h₁, h₂, h₃]

/-- C3: the differ is idempotent — with a stable remote event list and a
stable CalDAV collection, running the destination differ again immediately
after applying the first plan produces an empty plan (no create, update or
delete operations). -/
theorem destinationPlan_idempotent (syncAll keepLocal : Bool) (now : Int)
    (remote : List RemoteEvent) (lcl : List LocalEvent)
    (hr : (remote.map RemoteEvent.uid).Nodup)
    (hl : (lcl.map LocalEvent.uid).Nodup) :
    destinationPlan syncAll keepLocal now remote
      (applyPlan (destinationPlan syncAll keepLocal now remote lcl) lcl)
      = ⟨[], [], []⟩ := by
  unfold destinationPlan
  refine diffPlan_apply_empty keepLocal (filterRemote syncAll now remote) lcl ?_ hl
  have hsub : List.Sublist ((filterRemote syncAll now remote).map RemoteEvent.uid)
      (remote.map RemoteEvent.uid) := by
    cases syncAll with
    | true => simp [filterRemote]
    | false => exact List.Sublist.map _ (List.filter_sublist _)
  exact hr.sublist hsub

/-- Witness for C3 at the S3 scenario. -/
theorem destinationPlan_idempotent_witness :
    ((([⟨"u1", none, "B1"⟩, ⟨"u2", none, "B2"⟩] : List RemoteEvent).map
        RemoteEvent.uid).Nodup ∧
      (([⟨"u1", "h1", "B1"⟩, ⟨"u3", "h3", "B3"⟩] : List LocalEvent).map
        LocalEvent.uid).Nodup) ∧
    destinationPlan true false 0
      [⟨"u1", none, "B1"⟩, ⟨"u2", none, "B2"⟩]
      (applyPlan (destinationPlan true false 0
          [⟨"u1", none, "B1"⟩, ⟨"u2", none, "B2"⟩]
          [⟨"u1", "h1", "B1"⟩, ⟨"u3", "h3", "B3"⟩])
        [⟨"u1", "h1", "B1"⟩, ⟨"u3", "h3", "B3"⟩]) = ⟨[], [], []⟩ :=
  ⟨⟨by decide, by decide⟩,
    destinationPlan_idempotent true false 0
      [⟨"u1", none, "B1"⟩, ⟨"u2", none, "B2"⟩]
      [⟨"u1", "h1", "B1"⟩, ⟨"u3", "h3", "B3"⟩] (by decide) (by decide)⟩

/-- Modelled from the spec: an HTTP response, reduced to its status and
body. -/
structure HttpResponse where
  status : Nat
  body : String
deriving DecidableEq, Repr

/-- Whether the URL's last character is a slash. -/
def endsWithSlash (url : String) : Bool :=
  url.data.getLast? == some '/'

/-- Modelled from the spec: trailing-slash toggling (§4.1 quirk-retry) —
add the slash if absent, remove it if present. -/
def toggleSlash (url : String) : String :=
  if endsWithSlash url then ⟨url.data.dropLast⟩ else url ++ "/"

/-- The statuses that trigger the quirk retry (§4.1): 404 and 405. -/
def isQuirkStatus (s : Nat) : Bool := s == 404 || s == 405

/-- Success statuses (2xx). -/
def isSuccessStatus (s : Nat) : Bool := decide (200 ≤ s) && decide (s < 300)

/-- Modelled from the spec: the §4.1 quirk-retry policy — attempt the URL
as given; on 404/405 retry exactly once against the slash-toggled URL, and
report a second failure as the original error.  Returns the reported
response together with the list of attempted URLs, in order. -/
def requestWithRetry (send : String → HttpResponse) (url : String) :
    HttpResponse × List String :=
  let first := send url
  if isQuirkStatus first.status then
    let second := send (toggleSlash url)
    (if isSuccessStatus second.status then second else first,
      [url, toggleSlash url])
  else (first, [url])

/-- C4: for every CalDAV request whose first response is 404 or 405,
exactly one retry is issued, against the slash-toggled URL, and no retry
happens in any other case; if the retry also fails, the reported error is
the original response. -/
theorem requestWithRetry_policy (send : String → HttpResponse) (url : String) :
    (isQuirkStatus (send url).status = true →
      (requestWithRetry send url).2 = [url, toggleSlash url]) ∧
    (isQuirkStatus (send url).status = false →
      (requestWithRetry send url).2 = [url] ∧
      (requestWithRetry send url).1 = send url) ∧
    (isQuirkStatus (send url).status = true →
      isSuccessStatus (send (toggleSlash url)).status = false →
      (requestWithRetry send url).1 = send url) ∧
    (isQuirkStatus (send url).status = true →
      isSuccessStatus (send (toggleSlash url)).status = true →
      (requestWithRetry send url).1 = send (toggleSlash url)) ∧
    (endsWithSlash url = false → toggleSlash url = url ++ "/") ∧
    (endsWithSlash url = true → toggleSlash url = ⟨url.data.dropLast⟩) := by
  refine ⟨fun hq => ?_, fun hq => ?_, fun hq hf => ?_, fun hq hs => ?_,
    fun he => ?_, fun he => ?_⟩
  · simp [requestWithRetry, hq]
  · simp [requestWithRetry, hq]
  · simp [requestWithRetry, hq, hf]
  · simp [requestWithRetry, hq, hs]
  · simp [toggleSlash, he]
  · simp [toggleSlash, he]

/-- Modelled from the spec: the S2 scenario server — the slashless URL
404s, the slashed URL answers the multistatus. -/
def sendS2 : String → HttpResponse := fun u =>
  if u = "https://x/cal/" then ⟨207, "multistatus"⟩ else ⟨404, ""⟩

/-- Witness for C4 at the S2 scenario. -/
theorem requestWithRetry_policy_witness :
    isQuirkStatus (sendS2 "https://x/cal").status = true ∧
    (requestWithRetry sendS2 "https://x/cal").2
      = ["https://x/cal", "https://x/cal/"] := by
  refine ⟨by decide, ?_⟩
  have h := (requestWithRetry_policy sendS2 "https://x/cal").1 (by decide)
  rw [h]
  decide

/-- Sync outcome status recorded per unit (§3): unset, ok, or error. -/
inductive SyncStatus where
  | unset
  | ok
  | error
deriving DecidableEq, Repr

/-- Modelled from the spec: the published per-source state (§4.4, §4.5) —
the cached body (none before the first successful cycle) together with the
status fields. -/
structure SourceState where
  cachedBody : Option String
  lastSyncStatus : SyncStatus
  lastSyncError : Option String
deriving DecidableEq, Repr

/-- The initial empty state of a source. -/
def initialSourceState : SourceState := ⟨none, SyncStatus.unset, none⟩

/-- Modelled from the spec: the outcome of one source cycle's fetch and
assembly (§4.4 steps 2-3). -/
inductive CycleOutcome where
  | success : String → CycleOutcome
  | failure : String → CycleOutcome
deriving DecidableEq, Repr

/-- Modelled from the spec: status recording at the end of a source cycle
(§4.4 steps 4-5) — success atomically replaces the cached body and sets
`ok`; failure sets `error` with the message and does not touch the body. -/
def recordCycle (st : SourceState) : CycleOutcome → SourceState
  | CycleOutcome.success b => ⟨some b, SyncStatus.ok, none⟩
  | CycleOutcome.failure m => ⟨st.cachedBody, SyncStatus.error, some m⟩

/-- Modelled from the spec: the body served by the ICS publisher (§4.5) —
the cached body, or the initial empty state. -/
def servedBody (st : SourceState) : String := st.cachedBody.getD ""

/-- The body of the last successful cycle in a history, if any. -/
def lastSuccessBody (outs : List CycleOutcome) : Option String :=
  (outs.filterMap (fun o => match o with
    | CycleOutcome.success b => some b
    | CycleOutcome.failure _ => none)).getLast?

/-- Runs a history of cycle outcomes from the initial state. -/
def runCycles (outs : List CycleOutcome) : SourceState :=
  outs.foldl recordCycle initialSourceState

/-- C5: a failed sync cycle leaves the previously published ICS body
unchanged — it sets `last_sync_status = error` and `last_sync_error`, and
after any history of cycles the cached body is exactly the bytes of the
last successful cycle (none, i.e. the initial empty state, if no cycle has
succeeded). -/
theorem failed_sync_preserves_body (outs : List CycleOutcome) (m : String) :
    (recordCycle (runCycles outs) (CycleOutcome.failure m)).cachedBody
        = (runCycles outs).cachedBody ∧
    servedBody (recordCycle (runCycles outs) (CycleOutcome.failure m))
        = servedBody (runCycles outs) ∧
    (recordCycle (runCycles outs) (CycleOutcome.failure m)).lastSyncStatus
        = SyncStatus.error ∧
    (recordCycle (runCycles outs) (CycleOutcome.failure m)).lastSyncError
        = some m ∧
    (runCycles outs).cachedBody = lastSuccessBody outs := by
  refine ⟨rfl, rfl, rfl, rfl, ?_⟩
  induction outs using List.reverseRecOn with
  | nil => rfl
  | append_singleton xs o ih =>
    have hrun : runCycles (xs ++ [o]) = recordCycle (runCycles xs) o := by
      simp [runCycles, List.foldl_append]
    cases o with
    | success b =>
      rw [hrun]
      simp [recordCycle, lastSuccessBody, List.filterMap_append,
        List.getLast?_concat]
    | failure m₂ =>
      rw [hrun]
      show (runCycles xs).cachedBody
          = lastSuccessBody (xs ++ [CycleOutcome.failure m₂])
      rw [ih, lastSuccessBody, lastSuccessBody, List.filterMap_append]
      simp

/-- Result of a manual sync trigger (§4.4): the engine exposes
`try_trigger() → {Started, AlreadyRunning}`. -/
inductive TriggerResult where
  | Started
  | AlreadyRunning
deriving DecidableEq, Repr

/-- Modelled from the spec: the scheduler state across units (§4.4) — units
are identified by name, each with its `running` mutex flag and the number
of its cycles currently in flight. -/
structure EngineState where
  running : String → Bool
  inFlight : String → Nat

/-- The engine's initial state: nothing running. -/
def initEngine : EngineState := ⟨fun _ => false, fun _ => 0⟩

/-- Modelled from the spec: scheduler events (§4.4) — a timer tick, a
manual trigger, or the completion of a unit's in-flight cycle. -/
inductive EngineEvent where
  | timerTick : String → EngineEvent
  | manualTrigger : String → EngineEvent
  | cycleFinish : String → EngineEvent
deriving DecidableEq, Repr

/-- Starts a cycle for one unit: set its `running` flag, count the cycle as
in flight. -/
def startCycle (s : EngineState) (u : String) : EngineState :=
  ⟨fun v => if v == u then true else s.running v,
   fun v => if v == u then s.inFlight v + 1 else s.inFlight v⟩

/-- Modelled from the spec: one scheduler step (§4.4 concurrency
discipline) — a timer tick while `running` is dropped; a manual trigger
while `running` observes `AlreadyRunning` and starts nothing; otherwise a
cycle starts; a finishing cycle clears `running`. -/
def engineStep (s : EngineState) :
    EngineEvent → EngineState × Option TriggerResult
  | EngineEvent.timerTick u =>
      if s.running u then (s, none) else (startCycle s u, none)
  | EngineEvent.manualTrigger u =>
      if s.running u then (s, some TriggerResult.AlreadyRunning)
      else (startCycle s u, some TriggerResult.Started)
  | EngineEvent.cycleFinish u =>
      (⟨fun v => if v == u then false else s.running v,
        fun v => if v == u then s.inFlight v - 1 else s.inFlight v⟩, none)

/-- Runs a sequence of scheduler events from the initial state. -/
def engineRun (evs : List EngineEvent) : EngineState :=
  evs.foldl (fun s e => (engineStep s e).1) initEngine

theorem engineStep_invariant (s : EngineState)
    (hs : ∀ v, s.inFlight v = if s.running v then 1 else 0)
    (e : EngineEvent) :
    ∀ v, (engineStep s e).1.inFlight v
      = if (engineStep s e).1.running v then 1 else 0 := by
  intro v
  cases e with
  | timerTick x =>
    by_cases hx : s.running x
    · simp [engineStep, hx]
      exact hs v
    · simp [engineStep, hx, startCycle]
      by_cases hv : v = x
      · subst hv
        simp [hs v, hx]
      · simp [hv]
        exact hs v
  | manualTrigger x =>
    by_cases hx : s.running x
    · simp [engineStep, hx]
      exact hs v
    · simp [engineStep, hx, startCycle]
      by_cases hv : v = x
      · subst hv
        simp [hs v, hx]
      · simp [hv]
        exact hs v
  | cycleFinish x =>
    simp only [engineStep]
    by_cases hv : v = x
    · subst hv
      simp [hs v]
      split <;> rfl
    · simp [hv]
      exact hs v

theorem engineRun_invariant (evs : List EngineEvent) (v : String) :
    (engineRun evs).inFlight v = if (engineRun evs).running v then 1 else 0 := by
  suffices h : ∀ s : EngineState,
      (∀ w, s.inFlight w = if s.running w then 1 else 0) →
      ∀ w, (evs.foldl (fun s e => (engineStep s e).1) s).inFlight w
        = if (evs.foldl (fun s e => (engineStep s e).1) s).running w then 1 else 0 by
    exact h initEngine (fun _ => rfl) v
  induction evs with
  | nil => exact fun s hs w => hs w
  | cons e rest ih =>
    intro s hs w
    exact ih (engineStep s e).1 (engineStep_invariant s hs e) w

/-- C8: per unit, at most one sync cycle is ever in flight — after any
sequence of scheduler events, a unit's in-flight count is at most one; a
timer tick while the unit is running changes nothing (the tick is dropped);
a manual trigger while running observes `AlreadyRunning` and changes
nothing, while a trigger on an idle unit observes `Started`; and no step on
one unit affects the state of a different unit. -/
theorem engine_at_most_one (evs : List EngineEvent) (u : String) :
    (engineRun evs).inFlight u ≤ 1 ∧
    ((engineRun evs).running u = true →
      engineStep (engineRun evs) (EngineEvent.timerTick u)
        = ((engineRun evs), none)) ∧
    ((engineRun evs).running u = true →
      engineStep (engineRun evs) (EngineEvent.manualTrigger u)
        = ((engineRun evs), some TriggerResult.AlreadyRunning)) ∧
    ((engineRun evs).running u = false →
      (engineStep (engineRun evs) (EngineEvent.manualTrigger u)).2
        = some TriggerResult.Started) ∧
    (∀ v, v ≠ u →
      (engineStep (engineRun evs) (EngineEvent.timerTick u)).1.running v
          = (engineRun evs).running v ∧
      (engineStep (engineRun evs) (EngineEvent.manualTrigger u)).1.running v
          = (engineRun evs).running v ∧
      (engineStep (engineRun evs) (EngineEvent.timerTick u)).1.inFlight v
          = (engineRun evs).inFlight v ∧
      (engineStep (engineRun evs) (EngineEvent.manualTrigger u)).1.inFlight v
          = (engineRun evs).inFlight v) := by
  set s := engineRun evs with hsdef
  refine ⟨?_, fun hrun => ?_, fun hrun => ?_, fun hidle => ?_, fun v hv => ?_⟩
  · rw [hsdef, engineRun_invariant]
    split <;> omega
  · simp [engineStep, hrun]
  · simp [engineStep, hrun]
  · simp [engineStep, hidle]
  · by_cases hrun : s.running u <;>
      simp [engineStep, hrun, startCycle, hv]

/-- Witness for C8: a trigger racing a running cycle observes
`AlreadyRunning` and leaves the state unchanged. -/
theorem engine_at_most_one_witness :
    (engineRun [EngineEvent.manualTrigger "a"]).running "a" = true ∧
    engineStep (engineRun [EngineEvent.manualTrigger "a"])
        (EngineEvent.manualTrigger "a")
      = ((engineRun [EngineEvent.manualTrigger "a"]),
          some TriggerResult.AlreadyRunning) := by
  have hrun : (engineRun [EngineEvent.manualTrigger "a"]).running "a" = true := by
    simp [engineRun, engineStep, initEngine, startCycle]
  exact ⟨hrun, (engine_at_most_one [EngineEvent.manualTrigger "a"] "a").2.2.1 hrun⟩

end CaldavSync
